import Mathlib

/-!
Verification of the taxonomic-lineage-viewer repository.

Shallow embedding of the query engine (`models.py`), the dump parser and
loader (`setup.py`), and the import-status handle (`setup.py`,
`SimpleAutoInitializer`).  The stored Neo4j graph is modelled as a list of
taxon nodes together with a list of `PARENT_OF` edges (parent taxid, child
taxid); Cypher queries are translated to explicit list traversals under the
single-parent / acyclicity invariants that the loader establishes.
-/

namespace TaxView

/-- A `:Taxon` node as created by the loader (`setup.py` lines 202-234):
properties `taxid`, `scientific_name` (always set, possibly the synthesized
fallback), `common_name` (optional) and `rank`. -/
structure Taxon where
  taxid : Int
  scientific_name : String
  common_name : Option String
  rank : String
deriving DecidableEq

/-- The stored graph: `:Taxon` nodes plus `PARENT_OF` edges, each edge a
(parent taxid, child taxid) pair. -/
structure Graph where
  taxa : List Taxon
  edges : List (Int × Int)
deriving DecidableEq

/-- `MATCH (n:Taxon {taxid: $taxid})`: the unique node with the given taxid
(first match; unique under the loader's nodup-taxid invariant). -/
def findTaxon (g : Graph) (t : Int) : Option Taxon :=
  g.taxa.find? (fun n => n.taxid == t)

/-- The parent taxid of `t`, read off the inbound `PARENT_OF` edge
(at most one under the single-parent invariant). -/
def parentOf (g : Graph) (t : Int) : Option Int :=
  (g.edges.find? (fun e => e.2 == t)).map (fun e => e.1)

/-- Walk from `t` up the parent edges, collecting the visited nodes,
self-inclusive; `fuel` bounds the number of steps.  This realises the node
set of the Cypher pattern `(t)<-[:PARENT_OF*0..]-(x)` in path order for a
single-parent acyclic graph. -/
def chainAux (g : Graph) : Nat → Int → List Taxon
  | 0, _ => []
  | fuel + 1, t =>
    match findTaxon g t with
    | none => []
    | some n =>
      match parentOf g t with
      | none => [n]
      | some p => n :: chainAux g fuel p

/-- The self-inclusive ancestor chain of `t`, with fuel equal to the number
of stored nodes (enough for any acyclic graph). -/
def lineageNodes (g : Graph) (t : Int) : List Taxon :=
  chainAux g g.taxa.length t

/-- Python `record['common_name'] or record['scientific_name']`: the common
name when present and non-empty (Python truthiness), else the scientific
name. -/
def displayOf (n : Taxon) : String :=
  match n.common_name with
  | some c => if c = "" then n.scientific_name else c
  | none => n.scientific_name

/-- One entry of a lineage / search result (`models.py` lines 60-66). -/
structure LineageItem where
  taxid : Int
  scientific_name : String
  common_name : Option String
  rank : String
  display_name : String
deriving DecidableEq

def toLineageItem (n : Taxon) : LineageItem :=
  ⟨n.taxid, n.scientific_name, n.common_name, n.rank, displayOf n⟩

/-- `SimpleLineageViewer.get_species_lineage` (`models.py` lines 42-68).
The Cypher pattern `(species)<-[:PARENT_OF*]-(ancestor)` requires at least
one hop, so a node without a parent edge (a root) yields no path and hence
an empty lineage; otherwise the distinct nodes of all upward paths are the
full self-inclusive chain, most specific first. -/
def get_species_lineage (g : Graph) (t : Int) : List LineageItem :=
  match findTaxon g t with
  | none => []
  | some _ =>
    match parentOf g t with
    | none => []
    | some _ => (lineageNodes g t).map toLineageItem

/-- The `/api/lineage/<taxid>` route (`app.py` lines 52-65): an empty
lineage list is reported as a typed not-found error. -/
def lineage_endpoint (g : Graph) (t : Int) : Except String (List LineageItem) :=
  match get_species_lineage g t with
  | [] => Except.error "Species not found"
  | l => Except.ok l

/-- `rank_order` of `models.py` lines 177-181, with the `.get(_, 15)`
default for unrecognized ranks. -/
def rank_order (r : String) : Nat :=
  if r = "species" then 1
  else if r = "genus" then 2
  else if r = "subfamily" then 3
  else if r = "family" then 4
  else if r = "suborder" then 5
  else if r = "order" then 6
  else if r = "superorder" then 7
  else if r = "class" then 8
  else if r = "phylum" then 9
  else if r = "kingdom" then 10
  else if r = "superkingdom" then 11
  else if r = "domain" then 12
  else if r = "cellular root" then 13
  else if r = "no rank" then 14
  else 15

/-- Python `min(xs, key=...)`: first element attaining the minimal key. -/
def minByRank : List Taxon → Option Taxon
  | [] => none
  | x :: xs => some (xs.foldl (fun b a => if rank_order a.rank < rank_order b.rank then a else b) x)

/-- `[x IN lineage1 WHERE x IN lineage2]` (`models.py` line 154): the
common ancestors, in lineage-1 order. -/
def commonData (g : Graph) (t1 t2 : Int) : List Taxon :=
  (lineageNodes g t1).filter (fun x => decide (x ∈ lineageNodes g t2))

/-- The set of common ancestor taxids of the two lineages. -/
def commonSet (g : Graph) (t1 t2 : Int) : Finset Int :=
  ((lineageNodes g t1).map Taxon.taxid).toFinset ∩ ((lineageNodes g t2).map Taxon.taxid).toFinset

/-- A comparative-lineage entry: a lineage item plus its `shared` flag
(`models.py` lines 162-170). -/
structure CompareEntry where
  taxid : Int
  scientific_name : String
  common_name : Option String
  rank : String
  shared : Bool
  display_name : String
deriving DecidableEq

def toCompareEntry (common_taxids : List Int) (n : Taxon) : CompareEntry :=
  ⟨n.taxid, n.scientific_name, n.common_name, n.rank,
    decide (n.taxid ∈ common_taxids), displayOf n⟩

/-- The `species1` / `species2` blocks of the comparison result
(`models.py` lines 199-212). -/
structure SpeciesBlock where
  taxid : Int
  scientific_name : String
  common_name : Option String
  display_name : String
  lineage : List CompareEntry
deriving DecidableEq

/-- The reported most recent common ancestor (`models.py` lines 190-194). -/
structure Mrca where
  taxid : Int
  rank : String
  name : String
deriving DecidableEq

structure Comparison where
  common_ancestor : Option Mrca
  total_common_ancestors : Nat
deriving DecidableEq

structure CompareResult where
  species1 : SpeciesBlock
  species2 : SpeciesBlock
  comparison : Comparison
deriving DecidableEq

/-- The annotated lineage of `t` inside `CompareLineages(t1, t2)`: each
entry of the chain flagged with membership in the common taxid set
(`models.py` lines 162-170 and 184-185). -/
def compareEntries (g : Graph) (t1 t2 t : Int) : List CompareEntry :=
  (lineageNodes g t).map (toCompareEntry ((commonData g t1 t2).map Taxon.taxid))

/-- The reported MRCA (`models.py` lines 188-196): Python `min` over the
common nodes with the `rank_order` key when the common list is non-empty,
absent otherwise. -/
def mrcaOf (g : Graph) (t1 t2 : Int) : Option Mrca :=
  match minByRank (commonData g t1 t2) with
  | some m => some ⟨m.taxid, m.rank, displayOf m⟩
  | none => none

/-- `SimpleLineageViewer.get_comparative_lineage` (`models.py` lines
143-217).  The Cypher `MATCH` on both taxids yields no record when either
is absent, reported as the error dictionary; otherwise both self-inclusive
lineages (`*0..`) are collected, the common nodes intersected, every entry
annotated with `shared`, and the MRCA chosen by `min` over the common
nodes with the `rank_order` key. -/
def get_comparative_lineage (g : Graph) (t1 t2 : Int) : Except String CompareResult :=
  match findTaxon g t1, findTaxon g t2 with
  | some s1, some s2 =>
    Except.ok
      { species1 := ⟨s1.taxid, s1.scientific_name, s1.common_name, displayOf s1,
          compareEntries g t1 t2 t1⟩
        species2 := ⟨s2.taxid, s2.scientific_name, s2.common_name, displayOf s2,
          compareEntries g t1 t2 t2⟩
        comparison := ⟨mrcaOf g t1 t2, (commonData g t1 t2).length⟩ }
  | _, _ => Except.error "Species not found"

/-- Cypher `CONTAINS`: substring containment. -/
def containsStr (s pat : String) : Bool :=
  decide (List.IsInfix pat.data s.data)

/-- The `WHERE` clause of `search_species_by_name` (`models.py` lines
75-77) on the name fields: a null `common_name` makes its `CONTAINS`
null, so only the scientific-name disjunct can then match. -/
def matchesQuery (q : String) (common : Option String) (sci : String) : Bool :=
  containsStr sci.toLower q.toLower ||
    (match common with
     | some c => containsStr c.toLower q.toLower
     | none => false)

/-- The `ORDER BY CASE` tier of `search_species_by_name` (`models.py`
lines 82-87): 1 for a common-name prefix match, 2 for a scientific-name
prefix match, 3 otherwise; a null `common_name` skips the first branch. -/
def searchTier (q : String) (common : Option String) (sci : String) : Nat :=
  match common with
  | some c =>
    if c.toLower.startsWith q.toLower then 1
    else if sci.toLower.startsWith q.toLower then 2
    else 3
  | none =>
    if sci.toLower.startsWith q.toLower then 2
    else 3

/-- The `ORDER BY` key: tier first, scientific name ascending second. -/
def searchLE (q : String) (a b : Taxon) : Bool :=
  decide (searchTier q a.common_name a.scientific_name < searchTier q b.common_name b.scientific_name) ||
    (decide (searchTier q a.common_name a.scientific_name = searchTier q b.common_name b.scientific_name) &&
      decide (a.scientific_name ≤ b.scientific_name))

/-- `SimpleLineageViewer.search_species_by_name` (`models.py` lines
70-102): filter to species whose names contain the query, order by the
prefix tier then scientific name, cap at `limit`. -/
def search_species_by_name (g : Graph) (q : String) (limit : Nat) : List LineageItem :=
  let cands := g.taxa.filter (fun t => t.rank == "species" && matchesQuery q t.common_name t.scientific_name)
  ((cands.mergeSort (searchLE q)).take limit).map toLineageItem

/-- `SimpleLineageViewer.is_database_empty` (`models.py` lines 32-40):
the node count against the backend; an exception is treated as empty. -/
def is_database_empty (backend : Except String Graph) : Bool :=
  match backend with
  | Except.error _ => true
  | Except.ok g => g.taxa.length == 0

/-- Python `str.strip()` on a character list: drop whitespace from both
ends. -/
def pyStrip (cs : List Char) : List Char :=
  ((cs.dropWhile Char.isWhitespace).reverse.dropWhile Char.isWhitespace).reverse

/-- Python `str.split(sep)` for a non-empty separator, fuel-indexed so
that the kernel can evaluate it: scan left to right, cutting at each
non-overlapping occurrence of `sep`.  Consuming a separator removes at
least one character, so `fuel = s.length` is always sufficient. -/
def pySplitAux (sep : List Char) : Nat → List Char → List Char → List (List Char)
  | 0, s, acc => [acc.reverse ++ s]
  | fuel + 1, s, acc =>
    match s with
    | [] => [acc.reverse]
    | c :: rest =>
      if sep.isPrefixOf s then acc.reverse :: pySplitAux sep fuel (s.drop sep.length) []
      else pySplitAux sep fuel rest (c :: acc)

/-- Python `s.split(sep)` (non-empty `sep`). -/
def pySplit (sep s : List Char) : List (List Char) :=
  pySplitAux sep s.length s []

/-- Python `int(s)`: optional surrounding whitespace, optional sign, a
non-empty digit run; anything else raises `ValueError` (here: `none`).
Both parser call sites apply `.strip()` first, which this subsumes. -/
def pyInt (cs : List Char) : Option Int :=
  let body := pyStrip cs
  match body with
  | '+' :: ds =>
    if ds ≠ [] ∧ ds.all Char.isDigit then
      some (Int.ofNat (ds.foldl (fun n c => n * 10 + (c.toNat - 48)) 0))
    else none
  | '-' :: ds =>
    if ds ≠ [] ∧ ds.all Char.isDigit then
      some (-(Int.ofNat (ds.foldl (fun n c => n * 10 + (c.toNat - 48)) 0)))
    else none
  | ds =>
    if ds ≠ [] ∧ ds.all Char.isDigit then
      some (Int.ofNat (ds.foldl (fun n c => n * 10 + (c.toNat - 48)) 0))
    else none

/-- The per-line preprocessing shared by both dump parsers (`setup.py`
lines 81-83 and 113-115): strip surrounding whitespace, then drop a
trailing `"\t|"`. -/
def stripDump (line : String) : List Char :=
  let l := pyStrip line.data
  match l.reverse with
  | '|' :: '\t' :: rest => rest.reverse
  | _ => l

/-- The field separator `"\t|\t"` of the dump format. -/
def dumpSep : List Char := ['\t', '|', '\t']

/-- The raw fields `(taxid, parent_taxid, rank)` that
`NCBIToNeo4jMigrator.parse_nodes_file` (`setup.py` lines 85-97) extracts
from one line, `none` when the line is malformed (fewer than three
fields or a non-integer taxid / parent taxid). -/
def nodeFields (line : String) : Option (Int × Int × String) :=
  let parts := pySplit dumpSep (stripDump line)
  if parts.length ≥ 3 then
    match pyInt (parts.getD 0 []), pyInt (parts.getD 1 []) with
    | some taxid, some parent =>
      some (taxid, parent, String.mk (pyStrip (parts.getD 2 [])))
    | _, _ => none
  else none

/-- The stored node record (`setup.py` lines 92-95). -/
structure NodeInfo where
  parent_taxid : Option Int
  rank : String
deriving DecidableEq

/-- One line of `parse_nodes_file`: a declared parent equal to the taxid
itself is stored as `none` (`setup.py` line 93). -/
def parseNodesLine (line : String) : Option (Int × NodeInfo) :=
  (nodeFields line).map (fun f =>
    (f.1, ⟨if f.2.1 = f.1 then none else some f.2.1, f.2.2⟩))

/-- Python dict assignment `d[k] = v`: overwrite in place if the key
exists, else append (insertion order preserved). -/
def dictUpsert {α : Type} (d : List (Int × α)) (k : Int) (v : α) : List (Int × α) :=
  if d.any (fun p => p.1 == k) then
    d.map (fun p => if p.1 == k then (k, v) else p)
  else d ++ [(k, v)]

/-- Python dict lookup `d.get(k)`. -/
def dictFind {α : Type} (d : List (Int × α)) (k : Int) : Option α :=
  (d.find? (fun p => p.1 == k)).map (fun p => p.2)

/-- `NCBIToNeo4jMigrator.parse_nodes_file` (`setup.py` lines 70-100) over
a list of input lines: the `taxid → NodeInfo` dict in insertion order. -/
def parse_nodes_file (lines : List String) : List (Int × NodeInfo) :=
  lines.foldl (fun d line =>
    match parseNodesLine line with
    | some (t, info) => dictUpsert d t info
    | none => d) []

/-- The relationship phase of `load_taxonomy_into_neo4j` (`setup.py`
lines 241-278): one `(parent, child)` edge record per parsed node whose
`parent_taxid` passes `if parent_taxid and parent_taxid != taxid` —
Python truthiness makes both `None` and `0` fail the first conjunct. -/
def relationshipRecords (nodes : List (Int × NodeInfo)) : List (Int × Int) :=
  nodes.filterMap (fun p =>
    match p.2.parent_taxid with
    | some parent => if parent ≠ 0 ∧ parent ≠ p.1 then some (parent, p.1) else none
    | none => none)

/-- The stored name record (`setup.py` lines 124-132). -/
structure NameInfo where
  scientific_name : Option String
  common_name : Option String
deriving DecidableEq

/-- The raw fields `(taxid, name, name_class)` that
`NCBIToNeo4jMigrator.parse_names_file` (`setup.py` lines 117-134)
extracts from one line (fields 0, 1 and 3), `none` when malformed. -/
def nameFields (line : String) : Option (Int × String × String) :=
  let parts := pySplit dumpSep (stripDump line)
  if parts.length ≥ 4 then
    match pyInt (parts.getD 0 []) with
    | some taxid =>
      some (taxid, String.mk (pyStrip (parts.getD 1 [])), String.mk (pyStrip (parts.getD 3 [])))
    | none => none
  else none

/-- Python `if taxid not in names: names[taxid] = {}` (`setup.py` lines
124-125). -/
def dictEnsure (d : List (Int × NameInfo)) (k : Int) : List (Int × NameInfo) :=
  if d.any (fun p => p.1 == k) then d else d ++ [(k, ⟨none, none⟩)]

/-- In-place update of the value stored under key `k`. -/
def dictUpdate {α : Type} (d : List (Int × α)) (k : Int) (f : α → α) : List (Int × α) :=
  d.map (fun p => if p.1 == k then (k, f p.2) else p)

/-- `names[taxid]['scientific_name'] = name` (`setup.py` line 128): the
last scientific-name row wins. -/
def setSci (name : String) (i : NameInfo) : NameInfo :=
  ⟨some name, i.common_name⟩

/-- `if 'common_name' not in names[taxid]: ... = name` (`setup.py` lines
130-132): only the first common-name row is stored. -/
def setCommonFirst (name : String) (i : NameInfo) : NameInfo :=
  ⟨i.scientific_name,
    match i.common_name with
    | none => some name
    | some c => some c⟩

/-- One step of `parse_names_file` (`setup.py` lines 117-134): ensure the
taxid has an entry, then set `scientific_name` on a scientific-name row
and `common_name` on a common-name row only if not already set. -/
def applyNameRow (d : List (Int × NameInfo)) (line : String) : List (Int × NameInfo) :=
  match nameFields line with
  | none => d
  | some (t, name, cls) =>
    if cls = "scientific name" then dictUpdate (dictEnsure d t) t (setSci name)
    else if cls = "common name" then dictUpdate (dictEnsure d t) t (setCommonFirst name)
    else dictEnsure d t

/-- `NCBIToNeo4jMigrator.parse_names_file` (`setup.py` lines 102-137)
over a list of input lines. -/
def parse_names_file (lines : List String) : List (Int × NameInfo) :=
  lines.foldl applyNameRow []

/-- The common-name values declared for taxid `t` by the input lines, in
order: first element is the first common-name row for `t`. -/
def commonNameRows (lines : List String) (t : Int) : List String :=
  lines.filterMap (fun l =>
    match nameFields l with
    | some f => if f.1 = t ∧ f.2.2 = "common name" then some f.2.1 else none
    | none => none)

/-- The mutable status of `SimpleAutoInitializer` (`setup.py` lines
377-380): `is_running`, `is_complete` and the recorded error. -/
structure ImportState where
  is_running : Bool
  is_complete : Bool
  error : Option String
deriving DecidableEq

/-- `SimpleAutoInitializer.start_import` (`setup.py` lines 382-395):
refuse (returning `False`, state untouched) while a run is in flight,
otherwise flip to running and return `True`. -/
def start_import (s : ImportState) : Bool × ImportState :=
  if s.is_running then (false, s)
  else (true, { is_running := true, is_complete := false, error := none })

/-- Well-formedness of a loaded graph, as the loader and the integrity
validator establish it: node taxids are unique, each node has at most one
inbound `PARENT_OF` edge, every edge's parent endpoint is a stored node,
and the graph is acyclic, witnessed by a depth function `h` that strictly
increases along every parent-to-child edge and is bounded by the node
count (any finite single-parent DAG admits such an `h`). -/
def WellFormed (g : Graph) (h : Int → Nat) : Prop :=
  ((g.taxa.map Taxon.taxid).Nodup) ∧
  ((g.edges.map Prod.snd).Nodup) ∧
  (∀ e ∈ g.edges, ∃ n ∈ g.taxa, n.taxid = e.1) ∧
  (∀ e ∈ g.edges, h e.1 < h e.2) ∧
  (∀ n ∈ g.taxa, h n.taxid < g.taxa.length)

/-- A small well-formed fixture graph: root, a class, and a species. -/
def gW : Graph :=
  ⟨[⟨1, "root", none, "no rank"⟩,
    ⟨40674, "Mammalia", none, "class"⟩,
    ⟨9606, "Homo sapiens", some "human", "species"⟩],
   [(1, 40674), (40674, 9606)]⟩

/-- A depth function witnessing acyclicity of `gW`. -/
def hW : Int → Nat :=
  fun t => if t = 1 then 0 else if t = 40674 then 1 else 2

/-- A fixture where the queried node's own rank (`"no rank"`) is less
specific than its parent's (`"species"`), as for NCBI strains below a
species. -/
def gNoRank : Graph :=
  ⟨[⟨20, "Specius exemplum", none, "species"⟩,
    ⟨10, "Strain X", none, "no rank"⟩],
   [(20, 10)]⟩

/-- A depth function witnessing acyclicity of `gNoRank`. -/
def hNoRank : Int → Nat :=
  fun t => if t = 20 then 0 else 1

/-! ### Helper lemmas about the ancestor walk -/

theorem findTaxon_taxid {g : Graph} {t : Int} {n : Taxon}
    (hf : findTaxon g t = some n) : n.taxid = t := by
  have := List.find?_some hf
  simpa using this

theorem findTaxon_mem {g : Graph} {t : Int} {n : Taxon}
    (hf : findTaxon g t = some n) : n ∈ g.taxa :=
  List.mem_of_find?_eq_some hf

theorem parentOf_edge {g : Graph} {t p : Int} (hp : parentOf g t = some p) :
    ∃ e ∈ g.edges, e.1 = p ∧ e.2 = t := by
  unfold parentOf at hp
  cases hfind : g.edges.find? (fun e => e.2 == t) with
  | none => rw [hfind] at hp; simp at hp
  | some e =>
    rw [hfind] at hp
    simp only [Option.map_some'] at hp
    refine ⟨e, List.mem_of_find?_eq_some hfind, Option.some_injective _ hp, ?_⟩
    have := List.find?_some hfind
    simpa using this

theorem findTaxon_of_exists {g : Graph} {p : Int}
    (hex : ∃ n ∈ g.taxa, n.taxid = p) :
    ∃ m, findTaxon g p = some m ∧ m.taxid = p := by
  obtain ⟨n, hn, hnp⟩ := hex
  have hsome : (g.taxa.find? (fun x => x.taxid == p)).isSome := by
    rw [List.find?_isSome]
    exact ⟨n, hn, by simpa using hnp⟩
  obtain ⟨m, hm⟩ := Option.isSome_iff_exists.mp hsome
  exact ⟨m, hm, findTaxon_taxid hm⟩

theorem chainAux_mem {g : Graph} :
    ∀ {fuel : Nat} {t : Int} {x : Taxon}, x ∈ chainAux g fuel t → x ∈ g.taxa := by
  intro fuel
  induction fuel with
  | zero => intro t x hx; simp [chainAux] at hx
  | succ f ih =>
    intro t x hx
    unfold chainAux at hx
    cases hfind : findTaxon g t with
    | none => rw [hfind] at hx; simp at hx
    | some n =>
      rw [hfind] at hx
      cases hpar : parentOf g t with
      | none =>
        rw [hpar] at hx
        simp at hx
        exact hx ▸ findTaxon_mem hfind
      | some p =>
        rw [hpar] at hx
        rcases List.mem_cons.mp hx with h1 | h2
        · exact h1 ▸ findTaxon_mem hfind
        · exact ih h2

/-- The heart of the lineage-walk correctness: with enough fuel the walk
from a present node starts at that node, ends at a parentless node, and
visits nodes of strictly decreasing depth. -/
theorem chain_spec (g : Graph) (h : Int → Nat)
    (hpar : ∀ e ∈ g.edges, ∃ n ∈ g.taxa, n.taxid = e.1)
    (hh : ∀ e ∈ g.edges, h e.1 < h e.2) :
    ∀ fuel t n, findTaxon g t = some n → h t < fuel →
      (chainAux g fuel t).head? = some n ∧
      (∃ m, (chainAux g fuel t).getLast? = some m ∧ parentOf g m.taxid = none) ∧
      List.Chain' (fun a b => h b.taxid < h a.taxid) (chainAux g fuel t) := by
  intro fuel
  induction fuel with
  | zero => intro t n _ hlt; exact absurd hlt (Nat.not_lt_zero _)
  | succ f ih =>
    intro t n hfind hlt
    have hnt : n.taxid = t := findTaxon_taxid hfind
    cases hp : parentOf g t with
    | none =>
      refine ⟨?_, ⟨n, ?_, ?_⟩, ?_⟩
      · simp [chainAux, hfind, hp]
      · simp [chainAux, hfind, hp]
      · rw [hnt]; exact hp
      · simp [chainAux, hfind, hp]
    | some p =>
      obtain ⟨e, he, hep, het⟩ := parentOf_edge hp
      obtain ⟨n2, hfind2, hn2⟩ := findTaxon_of_exists (hep ▸ hpar e he)
      have hpt : h p < h t := by
        have := hh e he
        rwa [hep, het] at this
      have hpf : h p < f := lt_of_lt_of_le hpt (Nat.lt_succ_iff.mp hlt)
      obtain ⟨ihhead, ⟨mlast, ihlast, ihroot⟩, ihchain⟩ := ih p n2 hfind2 hpf
      obtain ⟨ys, hys⟩ := List.head?_eq_some_iff.mp ihhead
      have hchain_eq : chainAux g (f + 1) t = n :: chainAux g f p := by
        simp [chainAux, hfind, hp]
      refine ⟨?_, ⟨mlast, ?_, ihroot⟩, ?_⟩
      · rw [hchain_eq]; rfl
      · rw [hchain_eq, hys, List.getLast?_cons_cons, ← hys]
        exact ihlast
      · rw [hchain_eq, hys, List.chain'_cons, ← hys]
        refine ⟨?_, ihchain⟩
        rw [hnt, hn2]
        exact hpt

theorem chain_taxid_nodup (g : Graph) (h : Int → Nat)
    (hpar : ∀ e ∈ g.edges, ∃ n ∈ g.taxa, n.taxid = e.1)
    (hh : ∀ e ∈ g.edges, h e.1 < h e.2)
    {fuel : Nat} {t : Int} {n : Taxon} (hfind : findTaxon g t = some n)
    (hlt : h t < fuel) :
    ((chainAux g fuel t).map Taxon.taxid).Nodup := by
  obtain ⟨-, -, hchain⟩ := chain_spec g h hpar hh fuel t n hfind hlt
  haveI : IsTrans Taxon (fun a b => h b.taxid < h a.taxid) :=
    ⟨fun _ _ _ hab hbc => lt_trans hbc hab⟩
  have hpw := List.chain'_iff_pairwise.mp hchain
  have hne : List.Pairwise (fun a b : Taxon => a.taxid ≠ b.taxid) (chainAux g fuel t) :=
    hpw.imp (fun hab heq => by rw [heq] at hab; exact Nat.lt_irrefl _ hab)
  exact List.pairwise_map.mpr hne

/-- All chain facts at the fuel value `lineageNodes` uses, packaged for a
well-formed graph. -/
theorem lineageNodes_spec {g : Graph} {h : Int → Nat} (wf : WellFormed g h)
    {t : Int} {n : Taxon} (hfind : findTaxon g t = some n) :
    (lineageNodes g t).head? = some n ∧
    (∃ m, (lineageNodes g t).getLast? = some m ∧ parentOf g m.taxid = none) ∧
    ((lineageNodes g t).map Taxon.taxid).Nodup := by
  obtain ⟨-, -, hpar, hh, hbound⟩ := wf
  have hlt : h t < g.taxa.length := by
    have := hbound n (findTaxon_mem hfind)
    rwa [findTaxon_taxid hfind] at this
  obtain ⟨h1, h2, -⟩ := chain_spec g h hpar hh g.taxa.length t n hfind hlt
  exact ⟨h1, h2, chain_taxid_nodup g h hpar hh hfind hlt⟩

theorem lineageNodes_sub {g : Graph} {t : Int} {x : Taxon}
    (hx : x ∈ lineageNodes g t) : x ∈ g.taxa :=
  chainAux_mem hx

theorem lineageNodes_nodup {g : Graph} {h : Int → Nat} (wf : WellFormed g h)
    {t : Int} {n : Taxon} (hfind : findTaxon g t = some n) :
    (lineageNodes g t).Nodup :=
  List.Nodup.of_map Taxon.taxid (lineageNodes_spec wf hfind).2.2

/-- Two stored nodes with the same taxid coincide (nodup invariant). -/
theorem taxa_inj {g : Graph} {h : Int → Nat} (wf : WellFormed g h)
    {x y : Taxon} (hx : x ∈ g.taxa) (hy : y ∈ g.taxa)
    (hxy : x.taxid = y.taxid) : x = y :=
  List.inj_on_of_nodup_map wf.1 hx hy hxy

/-! ### Helper lemmas about the MRCA fold and the common-ancestor set -/

theorem foldlMin_spec (l : List Taxon) :
    ∀ b : Taxon,
      (l.foldl (fun b a => if rank_order a.rank < rank_order b.rank then a else b) b = b ∨
        l.foldl (fun b a => if rank_order a.rank < rank_order b.rank then a else b) b ∈ l) ∧
      rank_order (l.foldl (fun b a => if rank_order a.rank < rank_order b.rank then a else b) b).rank
        ≤ rank_order b.rank ∧
      ∀ y ∈ l,
        rank_order (l.foldl (fun b a => if rank_order a.rank < rank_order b.rank then a else b) b).rank
          ≤ rank_order y.rank := by
  induction l with
  | nil => intro b; exact ⟨Or.inl rfl, le_refl _, by simp⟩
  | cons a l ih =>
    intro b
    simp only [List.foldl_cons]
    by_cases hab : rank_order a.rank < rank_order b.rank
    · rw [if_pos hab]
      obtain ⟨ihm, ihle, ihall⟩ := ih a
      refine ⟨?_, ?_, ?_⟩
      · rcases ihm with hm | hm
        · exact Or.inr (by rw [hm]; exact List.mem_cons_self a l)
        · exact Or.inr (List.mem_cons_of_mem a hm)
      · exact le_trans ihle (le_of_lt hab)
      · intro y hy
        rcases List.mem_cons.mp hy with hy | hy
        · rw [hy]; exact ihle
        · exact ihall y hy
    · rw [if_neg hab]
      obtain ⟨ihm, ihle, ihall⟩ := ih b
      refine ⟨?_, ihle, ?_⟩
      · rcases ihm with hm | hm
        · exact Or.inl hm
        · exact Or.inr (List.mem_cons_of_mem a hm)
      · intro y hy
        rcases List.mem_cons.mp hy with hy | hy
        · rw [hy]; exact le_trans ihle (le_of_not_lt hab)
        · exact ihall y hy

/-- `min` with the rank key on a non-empty list: the result is a member
minimizing the key. -/
theorem minByRank_spec {l : List Taxon} (hne : l ≠ []) :
    ∃ m, minByRank l = some m ∧ m ∈ l ∧
      ∀ y ∈ l, rank_order m.rank ≤ rank_order y.rank := by
  cases l with
  | nil => exact absurd rfl hne
  | cons x xs =>
    obtain ⟨hm, hle, hall⟩ := foldlMin_spec xs x
    refine ⟨_, rfl, ?_, ?_⟩
    · rcases hm with hm | hm
      · rw [hm]; exact List.mem_cons_self x xs
      · exact List.mem_cons_of_mem x hm
    · intro y hy
      rcases List.mem_cons.mp hy with hy | hy
      · rw [hy]; exact hle
      · exact hall y hy

/-- When the seed already minimizes the key, Python `min` (first minimum
wins) returns the seed. -/
theorem foldlMin_of_min :
    ∀ (l : List Taxon) (b : Taxon),
      (∀ y ∈ l, rank_order b.rank ≤ rank_order y.rank) →
      l.foldl (fun b a => if rank_order a.rank < rank_order b.rank then a else b) b = b := by
  intro l
  induction l with
  | nil => intro b _; rfl
  | cons a l ih =>
    intro b hb
    simp only [List.foldl_cons]
    rw [if_neg (not_lt_of_le (hb a (List.mem_cons_self a l)))]
    exact ih b (fun y hy => hb y (List.mem_cons_of_mem a hy))

theorem mem_commonData_iff {g : Graph} {t1 t2 : Int} {x : Taxon} :
    x ∈ commonData g t1 t2 ↔ x ∈ lineageNodes g t1 ∧ x ∈ lineageNodes g t2 := by
  simp [commonData, List.mem_filter]

/-- The taxid set carried by the common-ancestor list is exactly the
intersection of the two lineages' taxid sets. -/
theorem commonSet_eq {g : Graph} {h : Int → Nat} (wf : WellFormed g h)
    (t1 t2 : Int) :
    commonSet g t1 t2 = ((commonData g t1 t2).map Taxon.taxid).toFinset := by
  ext a
  simp only [commonSet, Finset.mem_inter, List.mem_toFinset, List.mem_map]
  constructor
  · rintro ⟨⟨x, hx1, hxa⟩, ⟨y, hy2, hya⟩⟩
    have hxy : x = y :=
      taxa_inj wf (lineageNodes_sub hx1) (lineageNodes_sub hy2) (by rw [hxa, hya])
    exact ⟨x, mem_commonData_iff.mpr ⟨hx1, hxy ▸ hy2⟩, hxa⟩
  · rintro ⟨x, hx, hxa⟩
    obtain ⟨h1, h2⟩ := mem_commonData_iff.mp hx
    exact ⟨⟨x, h1, hxa⟩, ⟨x, h2, hxa⟩⟩

/-- `len(common_data)` is the cardinality of the common-ancestor set. -/
theorem commonData_length_eq_card {g : Graph} {h : Int → Nat} (wf : WellFormed g h)
    {t1 t2 : Int} {s1 : Taxon}
    (hf1 : findTaxon g t1 = some s1) :
    (commonData g t1 t2).length = (commonSet g t1 t2).card := by
  rw [commonSet_eq wf t1 t2]
  have hnd : ((commonData g t1 t2).map Taxon.taxid).Nodup := by
    have hsub : (commonData g t1 t2).Sublist (lineageNodes g t1) := List.filter_sublist _
    exact (hsub.map Taxon.taxid).nodup (lineageNodes_spec wf hf1).2.2
  rw [List.toFinset_card_of_nodup hnd, List.length_map]

/-! ### Claim C1 -/

/-- C1 (amended): for every taxid present in the graph **that has a
parent edge**, `GetLineage` returns a non-empty sequence, deduplicated by
taxid, whose first element is the queried node itself and whose last
element is a root (has no parent edge).  (For a present root taxid the
Cypher `[:PARENT_OF*]` pattern — minimum one hop — matches no path and
the lineage is empty; see the counterexample.) -/
theorem C1_lineage_shape {g : Graph} {h : Int → Nat} (wf : WellFormed g h)
    {t : Int} {n : Taxon} {p : Int}
    (hfind : findTaxon g t = some n) (hp : parentOf g t = some p) :
    get_species_lineage g t ≠ [] ∧
    (get_species_lineage g t).head? = some (toLineageItem n) ∧
    n.taxid = t ∧
    ((get_species_lineage g t).map LineageItem.taxid).Nodup ∧
    ∃ it, (get_species_lineage g t).getLast? = some it ∧ parentOf g it.taxid = none := by
  have hL : get_species_lineage g t = (lineageNodes g t).map toLineageItem := by
    simp [get_species_lineage, hfind, hp]
  obtain ⟨hhead, ⟨m, hlast, hroot⟩, hnd⟩ := lineageNodes_spec wf hfind
  refine ⟨?_, ?_, findTaxon_taxid hfind, ?_, ?_⟩
  · rw [hL]
    intro hnil
    rw [List.map_eq_nil_iff] at hnil
    rw [hnil] at hhead
    exact Option.noConfusion hhead
  · rw [hL, List.head?_map, hhead]; rfl
  · rw [hL, List.map_map]
    exact hnd
  · refine ⟨toLineageItem m, ?_, hroot⟩
    rw [hL, List.getLast?_map, hlast]; rfl

/-- Witness for C1 at the fixture graph: the species node 9606 has a
parent edge and its lineage has the stated shape. -/
theorem C1_witness :
    WellFormed gW hW ∧
    findTaxon gW 9606 = some ⟨9606, "Homo sapiens", some "human", "species"⟩ ∧
    parentOf gW 9606 = some 40674 ∧
    (get_species_lineage gW 9606 ≠ [] ∧
     (get_species_lineage gW 9606).head? =
       some (toLineageItem ⟨9606, "Homo sapiens", some "human", "species"⟩) ∧
     Taxon.taxid ⟨9606, "Homo sapiens", some "human", "species"⟩ = 9606 ∧
     ((get_species_lineage gW 9606).map LineageItem.taxid).Nodup ∧
     ∃ it, (get_species_lineage gW 9606).getLast? = some it ∧ parentOf gW it.taxid = none) :=
  ⟨by unfold WellFormed; decide, by decide, by decide,
    C1_lineage_shape (g := gW) (h := hW) (p := 40674)
      (by unfold WellFormed; decide) (by decide) (by decide)⟩

/-- Counterexample to C1 as stated: taxid 1 is present in the fixture
graph but is a root, and its `GetLineage` is empty rather than a
non-empty sequence starting at the node itself. -/
theorem C1_counterexample :
    findTaxon gW 1 = some ⟨1, "root", none, "no rank"⟩ ∧
    get_species_lineage gW 1 = [] := by decide

/-! ### Claim C3 -/

/-- C3 (amended): the lineage query reports not-found exactly when the
queried taxid is absent **or is a root** (has no parent edge); an absent
taxid yields the typed not-found error of the route, never a crash (the
embedding is total). -/
theorem C3_notfound_iff (g : Graph) (t : Int) :
    (get_species_lineage g t = [] ↔ findTaxon g t = none ∨ parentOf g t = none) ∧
    (lineage_endpoint g t = Except.error "Species not found" ↔
      findTaxon g t = none ∨ parentOf g t = none) := by
  have hmain : get_species_lineage g t = [] ↔ findTaxon g t = none ∨ parentOf g t = none := by
    constructor
    · intro hnil
      by_contra hcon
      push_neg at hcon
      obtain ⟨h1, h2⟩ := hcon
      obtain ⟨n, hn⟩ := Option.ne_none_iff_exists'.mp h1
      obtain ⟨p, hp⟩ := Option.ne_none_iff_exists'.mp h2
      have hL : get_species_lineage g t = (lineageNodes g t).map toLineageItem := by
        simp [get_species_lineage, hn, hp]
      rw [hL] at hnil
      have hmem := findTaxon_mem hn
      have hlen : g.taxa.length ≠ 0 := by
        intro h0
        rw [List.length_eq_zero] at h0
        rw [h0] at hmem
        exact List.not_mem_nil n hmem
      obtain ⟨k, hk⟩ := Nat.exists_eq_succ_of_ne_zero hlen
      unfold lineageNodes at hnil
      rw [hk] at hnil
      unfold chainAux at hnil
      rw [hn, hp] at hnil
      exact List.noConfusion (List.map_eq_nil_iff.mp hnil)
    · rintro (h1 | h2)
      · simp [get_species_lineage, h1]
      · cases hf : findTaxon g t <;> simp [get_species_lineage, hf, h2]
  refine ⟨hmain, ?_⟩
  rw [← hmain]
  unfold lineage_endpoint
  cases hE : get_species_lineage g t with
  | nil => simp
  | cons a l => simp

/-- Counterexample to C3 as stated: taxid 1 is present in the fixture
graph, yet the route reports the typed not-found error because the node
is a root. -/
theorem C3_counterexample :
    (findTaxon gW 1).isSome = true ∧
    lineage_endpoint gW 1 = Except.error "Species not found" :=
  ⟨by decide, rfl⟩

/-! ### Claim C9 -/

/-- C9: `startImport()` returns `False` and leaves the status state
unchanged whenever an import is already running; otherwise it returns
`True` and sets the status to running (also resetting `is_complete` and
`error`). -/
theorem C9_start_import (s : ImportState) :
    (s.is_running = true → start_import s = (false, s)) ∧
    (s.is_running = false →
      (start_import s).1 = true ∧ (start_import s).2.is_running = true) := by
  constructor <;> intro h <;> simp [start_import, h]

/-- Witness for C9: both branches at concrete states. -/
theorem C9_witness :
    start_import ⟨true, false, some "boom"⟩ = (false, ⟨true, false, some "boom"⟩) ∧
    ((start_import ⟨false, true, some "old"⟩).1 = true ∧
     (start_import ⟨false, true, some "old"⟩).2.is_running = true) :=
  ⟨(C9_start_import ⟨true, false, some "boom"⟩).1 rfl,
   (C9_start_import ⟨false, true, some "old"⟩).2 rfl⟩

/-! ### Claim C10 -/

/-- C10: `isEmpty()` returns true whenever the backend emptiness check
fails with an exception, and otherwise returns true exactly when the
stored node count is zero. -/
theorem C10_is_empty (msg : String) (g : Graph) :
    is_database_empty (Except.error msg) = true ∧
    (is_database_empty (Except.ok g) = true ↔ g.taxa.length = 0) := by
  refine ⟨rfl, ?_⟩
  simp [is_database_empty]

/-! ### Claim C2 -/

/-- C2: when both taxids are present, `CompareLineages` succeeds; its
`totalCommonAncestors` is the cardinality of the common-ancestor set;
when that set is empty the MRCA is absent; and when it is non-empty the
reported MRCA comes from a common ancestor that minimizes the
`rank_order` key. -/
theorem C2_mrca_spec {g : Graph} {h : Int → Nat} (wf : WellFormed g h)
    {t1 t2 : Int} {s1 s2 : Taxon}
    (hf1 : findTaxon g t1 = some s1) (hf2 : findTaxon g t2 = some s2) :
    ∃ res, get_comparative_lineage g t1 t2 = Except.ok res ∧
      res.comparison.total_common_ancestors = (commonSet g t1 t2).card ∧
      (commonSet g t1 t2 = ∅ → res.comparison.common_ancestor = none) ∧
      (commonSet g t1 t2 ≠ ∅ →
        ∃ m ∈ commonData g t1 t2, m.taxid ∈ commonSet g t1 t2 ∧
          res.comparison.common_ancestor = some ⟨m.taxid, m.rank, displayOf m⟩ ∧
          ∀ y ∈ commonData g t1 t2, rank_order m.rank ≤ rank_order y.rank) := by
  have hcc : commonSet g t1 t2 = ∅ ↔ commonData g t1 t2 = [] := by
    rw [commonSet_eq wf t1 t2]
    rw [List.toFinset_eq_empty_iff, List.map_eq_nil_iff]
  refine ⟨⟨⟨s1.taxid, s1.scientific_name, s1.common_name, displayOf s1, compareEntries g t1 t2 t1⟩,
      ⟨s2.taxid, s2.scientific_name, s2.common_name, displayOf s2, compareEntries g t1 t2 t2⟩,
      ⟨mrcaOf g t1 t2, (commonData g t1 t2).length⟩⟩,
    by simp [get_comparative_lineage, hf1, hf2], ?_, ?_, ?_⟩
  · exact commonData_length_eq_card wf hf1
  · intro hempty
    have hnil := hcc.mp hempty
    show mrcaOf g t1 t2 = none
    rw [mrcaOf, hnil]
    rfl
  · intro hne
    have hdne : commonData g t1 t2 ≠ [] := fun hnil => hne (hcc.mpr hnil)
    obtain ⟨m, hmin, hmem, hall⟩ := minByRank_spec hdne
    refine ⟨m, hmem, ?_, ?_, hall⟩
    · rw [commonSet_eq wf t1 t2, List.mem_toFinset]
      exact List.mem_map_of_mem Taxon.taxid hmem
    · show mrcaOf g t1 t2 = some ⟨m.taxid, m.rank, displayOf m⟩
      rw [mrcaOf, hmin]

/-- Witness for C2 at the fixture graph, comparing the species with the
class node. -/
theorem C2_witness :
    WellFormed gW hW ∧
    (∃ res, get_comparative_lineage gW 9606 40674 = Except.ok res ∧
      res.comparison.total_common_ancestors = (commonSet gW 9606 40674).card ∧
      (commonSet gW 9606 40674 = ∅ → res.comparison.common_ancestor = none) ∧
      (commonSet gW 9606 40674 ≠ ∅ →
        ∃ m ∈ commonData gW 9606 40674, m.taxid ∈ commonSet gW 9606 40674 ∧
          res.comparison.common_ancestor = some ⟨m.taxid, m.rank, displayOf m⟩ ∧
          ∀ y ∈ commonData gW 9606 40674, rank_order m.rank ≤ rank_order y.rank)) :=
  ⟨by unfold WellFormed; decide,
   C2_mrca_spec (g := gW) (h := hW) (by unfold WellFormed; decide)
     (show findTaxon gW 9606 = some ⟨9606, "Homo sapiens", some "human", "species"⟩ by decide)
     (show findTaxon gW 40674 = some ⟨40674, "Mammalia", none, "class"⟩ by decide)⟩

/-! ### Claim C6 -/

theorem mem_commonTaxids_symm (g : Graph) (a b x : Int) :
    x ∈ (commonData g a b).map Taxon.taxid ↔ x ∈ (commonData g b a).map Taxon.taxid := by
  simp only [List.mem_map]
  constructor
  all_goals
    rintro ⟨y, hy, rfl⟩
    obtain ⟨h1, h2⟩ := mem_commonData_iff.mp hy
    exact ⟨y, mem_commonData_iff.mpr ⟨h2, h1⟩, rfl⟩

theorem compareEntries_symm (g : Graph) (a b t : Int) :
    compareEntries g a b t = compareEntries g b a t := by
  unfold compareEntries
  apply List.map_congr_left
  intro x _
  unfold toCompareEntry
  simp only [CompareEntry.mk.injEq, true_and, and_true]
  exact decide_eq_decide.mpr (mem_commonTaxids_symm g a b x.taxid)

/-- C6: `CompareLineages` is content-symmetric: for present taxids `a`
and `b` the two orders succeed with the same common-ancestor taxid set
and the same `totalCommonAncestors`; only the `species1`/`species2`
labeling swaps (the blocks are equal component-wise, shared flags
included). -/
theorem C6_symmetric {g : Graph} {h : Int → Nat} (wf : WellFormed g h)
    {a b : Int} {sa sb : Taxon}
    (hfa : findTaxon g a = some sa) (hfb : findTaxon g b = some sb) :
    ∃ rab rba, get_comparative_lineage g a b = Except.ok rab ∧
      get_comparative_lineage g b a = Except.ok rba ∧
      commonSet g a b = commonSet g b a ∧
      rab.species1 = rba.species2 ∧ rab.species2 = rba.species1 ∧
      rab.comparison.total_common_ancestors = rba.comparison.total_common_ancestors := by
  refine ⟨⟨⟨sa.taxid, sa.scientific_name, sa.common_name, displayOf sa, compareEntries g a b a⟩,
      ⟨sb.taxid, sb.scientific_name, sb.common_name, displayOf sb, compareEntries g a b b⟩,
      ⟨mrcaOf g a b, (commonData g a b).length⟩⟩,
    ⟨⟨sb.taxid, sb.scientific_name, sb.common_name, displayOf sb, compareEntries g b a b⟩,
      ⟨sa.taxid, sa.scientific_name, sa.common_name, displayOf sa, compareEntries g b a a⟩,
      ⟨mrcaOf g b a, (commonData g b a).length⟩⟩,
    by simp [get_comparative_lineage, hfa, hfb],
    by simp [get_comparative_lineage, hfa, hfb], ?_, ?_, ?_, ?_⟩
  · unfold commonSet
    exact Finset.inter_comm _ _
  · show SpeciesBlock.mk _ _ _ _ (compareEntries g a b a) =
      SpeciesBlock.mk _ _ _ _ (compareEntries g b a a)
    rw [compareEntries_symm g a b a]
  · show SpeciesBlock.mk _ _ _ _ (compareEntries g a b b) =
      SpeciesBlock.mk _ _ _ _ (compareEntries g b a b)
    rw [compareEntries_symm g a b b]
  · show (commonData g a b).length = (commonData g b a).length
    rw [commonData_length_eq_card wf hfa, commonData_length_eq_card wf hfb]
    unfold commonSet
    rw [Finset.inter_comm]

/-- Witness for C6 at the fixture graph. -/
theorem C6_witness :
    WellFormed gW hW ∧
    (∃ rab rba, get_comparative_lineage gW 9606 40674 = Except.ok rab ∧
      get_comparative_lineage gW 40674 9606 = Except.ok rba ∧
      commonSet gW 9606 40674 = commonSet gW 40674 9606 ∧
      rab.species1 = rba.species2 ∧ rab.species2 = rba.species1 ∧
      rab.comparison.total_common_ancestors = rba.comparison.total_common_ancestors) :=
  ⟨by unfold WellFormed; decide,
   C6_symmetric (g := gW) (h := hW) (by unfold WellFormed; decide)
     (show findTaxon gW 9606 = some ⟨9606, "Homo sapiens", some "human", "species"⟩ by decide)
     (show findTaxon gW 40674 = some ⟨40674, "Mammalia", none, "class"⟩ by decide)⟩

/-! ### Claim C7 -/

/-- C7 (amended): for every taxid `x` present in the graph,
`CompareLineages(x, x)` marks every entry of both annotated lineages
with `shared == true`; the reported MRCA is always a lineage member
minimizing the `rank_order` key; and whenever the queried node's own
rank minimizes that key over its lineage (as for any node of rank
`"species"`), the MRCA taxid equals `x`.  (Without that minimality the
MRCA is the most rank-specific ancestor instead; see the
counterexample, where a `"no rank"` node below a species yields the
parent as MRCA.) -/
theorem C7_self_compare {g : Graph} {h : Int → Nat} (wf : WellFormed g h)
    {x : Int} {n : Taxon} (hfind : findTaxon g x = some n) :
    ∃ r, get_comparative_lineage g x x = Except.ok r ∧
      (∀ e ∈ r.species1.lineage, e.shared = true) ∧
      (∀ e ∈ r.species2.lineage, e.shared = true) ∧
      (∃ m ∈ lineageNodes g x,
        r.comparison.common_ancestor = some ⟨m.taxid, m.rank, displayOf m⟩ ∧
        ∀ y ∈ lineageNodes g x, rank_order m.rank ≤ rank_order y.rank) ∧
      ((∀ y ∈ lineageNodes g x, rank_order n.rank ≤ rank_order y.rank) →
        ∃ m, r.comparison.common_ancestor = some m ∧ m.taxid = x) := by
  have hcommon : commonData g x x = lineageNodes g x := by
    unfold commonData
    rw [List.filter_eq_self]
    intro a ha
    exact decide_eq_true ha
  have hshared : ∀ e ∈ compareEntries g x x x, e.shared = true := by
    intro e he
    obtain ⟨y, hy, rfl⟩ := List.mem_map.mp he
    show decide (y.taxid ∈ (commonData g x x).map Taxon.taxid) = true
    rw [hcommon]
    exact decide_eq_true (List.mem_map_of_mem Taxon.taxid hy)
  obtain ⟨hhead, -, -⟩ := lineageNodes_spec wf hfind
  obtain ⟨ys, hys⟩ := List.head?_eq_some_iff.mp hhead
  have hne : lineageNodes g x ≠ [] := by
    rw [hys]
    exact List.cons_ne_nil n ys
  refine ⟨⟨⟨n.taxid, n.scientific_name, n.common_name, displayOf n, compareEntries g x x x⟩,
      ⟨n.taxid, n.scientific_name, n.common_name, displayOf n, compareEntries g x x x⟩,
      ⟨mrcaOf g x x, (commonData g x x).length⟩⟩,
    by simp [get_comparative_lineage, hfind], hshared, hshared, ?_, ?_⟩
  · obtain ⟨m, hmeq, hmem, hall⟩ := minByRank_spec hne
    refine ⟨m, hmem, ?_, hall⟩
    show mrcaOf g x x = some ⟨m.taxid, m.rank, displayOf m⟩
    rw [mrcaOf, hcommon, hmeq]
  · intro hmin
    have hminL : minByRank (lineageNodes g x) = some n := by
      rw [hys]
      show some (ys.foldl (fun b a => if rank_order a.rank < rank_order b.rank then a else b) n) =
        some n
      rw [foldlMin_of_min ys n
        (fun y hy => hmin y (by rw [hys]; exact List.mem_cons_of_mem n hy))]
    refine ⟨⟨n.taxid, n.rank, displayOf n⟩, ?_, findTaxon_taxid hfind⟩
    show mrcaOf g x x = _
    rw [mrcaOf, hcommon, hminL]

/-- Witness for C7 at the fixture graph with the species node 9606. -/
theorem C7_witness :
    WellFormed gW hW ∧
    (∃ r, get_comparative_lineage gW 9606 9606 = Except.ok r ∧
      (∀ e ∈ r.species1.lineage, e.shared = true) ∧
      (∀ e ∈ r.species2.lineage, e.shared = true) ∧
      (∃ m ∈ lineageNodes gW 9606,
        r.comparison.common_ancestor = some ⟨m.taxid, m.rank, displayOf m⟩ ∧
        ∀ y ∈ lineageNodes gW 9606, rank_order m.rank ≤ rank_order y.rank) ∧
      ((∀ y ∈ lineageNodes gW 9606, rank_order "species" ≤ rank_order y.rank) →
        ∃ m, r.comparison.common_ancestor = some m ∧ m.taxid = 9606)) :=
  ⟨by unfold WellFormed; decide,
   C7_self_compare (g := gW) (h := hW) (by unfold WellFormed; decide)
     (show findTaxon gW 9606 = some ⟨9606, "Homo sapiens", some "human", "species"⟩
       by decide)⟩

/-- Counterexample to C7 as stated: in `gNoRank` the present taxid 10
(rank `"no rank"`) compared with itself reports MRCA taxid 20 (its
parent, rank `"species"`), not 10. -/
theorem C7_counterexample :
    (findTaxon gNoRank 10).isSome = true ∧
    (get_comparative_lineage gNoRank 10 10).toOption.map
      (fun r => r.comparison.common_ancestor.map Mrca.taxid) = some (some 20) :=
  ⟨by decide, by decide⟩

/-! ### Claim C4 -/

theorem searchLE_trans (q : String) :
    ∀ a b c : Taxon, searchLE q a b = true → searchLE q b c = true → searchLE q a c = true := by
  intro a b c hab hbc
  simp only [searchLE, Bool.or_eq_true, Bool.and_eq_true, decide_eq_true_eq] at hab hbc ⊢
  rcases hab with h1 | ⟨h1, h2⟩ <;> rcases hbc with h3 | ⟨h3, h4⟩
  · exact Or.inl (lt_trans h1 h3)
  · exact Or.inl (h3 ▸ h1)
  · exact Or.inl (h1 ▸ h3)
  · exact Or.inr ⟨h1.trans h3, le_trans h2 h4⟩

theorem searchLE_total (q : String) :
    ∀ a b : Taxon, (searchLE q a b || searchLE q b a) = true := by
  intro a b
  simp only [searchLE, Bool.or_eq_true, Bool.and_eq_true, decide_eq_true_eq]
  rcases lt_trichotomy (searchTier q a.common_name a.scientific_name)
    (searchTier q b.common_name b.scientific_name) with h | h | h
  · exact Or.inl (Or.inl h)
  · rcases le_total a.scientific_name b.scientific_name with hle | hle
    · exact Or.inl (Or.inr ⟨h, hle⟩)
    · exact Or.inr (Or.inr ⟨h.symm, hle⟩)
  · exact Or.inr (Or.inl h)

/-- C4: every result of `SearchByName(query, limit)` has rank
`"species"` and matches the query as a case-insensitive substring of its
scientific or common name; results are ordered by the prefix tier
(common-name prefix, then scientific-name prefix, then other substring
matches) with ascending scientific name within each tier; and at most
`limit` entries are returned. -/
theorem C4_search_spec (g : Graph) (q : String) (limit : Nat) :
    (∀ it ∈ search_species_by_name g q limit,
      it.rank = "species" ∧ matchesQuery q it.common_name it.scientific_name = true) ∧
    List.Pairwise (fun a b : LineageItem =>
      searchTier q a.common_name a.scientific_name < searchTier q b.common_name b.scientific_name ∨
        (searchTier q a.common_name a.scientific_name =
            searchTier q b.common_name b.scientific_name ∧
          a.scientific_name ≤ b.scientific_name))
      (search_species_by_name g q limit) ∧
    (search_species_by_name g q limit).length ≤ limit := by
  refine ⟨?_, ?_, ?_⟩
  · intro it hit
    obtain ⟨t, ht, rfl⟩ := List.mem_map.mp hit
    have ht2 : t ∈ (g.taxa.filter
        (fun t => t.rank == "species" && matchesQuery q t.common_name t.scientific_name)) :=
      List.mem_mergeSort.mp ((List.take_sublist _ _).subset ht)
    obtain ⟨-, hcond⟩ := List.mem_filter.mp ht2
    rw [Bool.and_eq_true] at hcond
    obtain ⟨hrank, hmatch⟩ := hcond
    exact ⟨by simpa using hrank, hmatch⟩
  · have hpw := List.sorted_mergeSort (searchLE_trans q) (searchLE_total q)
      (g.taxa.filter
        (fun t => t.rank == "species" && matchesQuery q t.common_name t.scientific_name))
    have hpw2 := hpw.sublist (List.take_sublist limit _)
    refine List.pairwise_map.mpr (hpw2.imp ?_)
    intro a b hab
    simpa only [searchLE, Bool.or_eq_true, Bool.and_eq_true, decide_eq_true_eq] using hab
  · show (List.map _ _).length ≤ limit
    rw [List.length_map]
    exact List.length_take_le _ _

/-! ### Claim C5 -/

/-- C5 (amended): the edge phase emits a `ParentOf` record exactly for
the parsed nodes whose stored `parentTaxid` is non-none **and non-zero**
(Python truthiness: `if parent_taxid and parent_taxid != taxid`) and
different from the node's own taxid; and the parser stores `none` as
`parentTaxid` exactly when the declared parent equals the node's own
taxid.  (A declared parent of `0` is stored as `some 0` yet emits no
edge; see the counterexample.) -/
theorem C5_edge_phase :
    (∀ (nodes : List (Int × NodeInfo)) (p c : Int),
      (p, c) ∈ relationshipRecords nodes ↔
        ∃ info, (c, info) ∈ nodes ∧ info.parent_taxid = some p ∧ p ≠ 0 ∧ p ≠ c) ∧
    (∀ (line : String) (t d : Int) (r : String), nodeFields line = some (t, d, r) →
      ∃ info, parseNodesLine line = some (t, info) ∧
        (info.parent_taxid = none ↔ d = t) ∧
        (d ≠ t → info.parent_taxid = some d)) := by
  constructor
  · intro nodes p c
    rw [relationshipRecords, List.mem_filterMap]
    constructor
    · rintro ⟨⟨c2, info⟩, hmem, hf⟩
      cases hpt : info.parent_taxid with
      | none => rw [hpt] at hf; exact absurd hf (by simp)
      | some parent =>
        rw [hpt] at hf
        dsimp only at hf
        by_cases hcond : parent ≠ 0 ∧ parent ≠ c2
        · rw [if_pos hcond] at hf
          obtain ⟨hp, hc⟩ := Prod.mk.injEq .. ▸ Option.some_injective _ hf
          subst hp
          subst hc
          exact ⟨info, hmem, hpt, hcond⟩
        · rw [if_neg hcond] at hf
          exact absurd hf (by simp)
    · rintro ⟨info, hmem, hpt, hp0, hpc⟩
      refine ⟨(c, info), hmem, ?_⟩
      show (match info.parent_taxid with
        | some parent => if parent ≠ 0 ∧ parent ≠ c then some (parent, c) else none
        | none => none) = some (p, c)
      rw [hpt]
      dsimp only
      rw [if_pos ⟨hp0, hpc⟩]
  · intro line t d r hnf
    refine ⟨⟨if d = t then none else some d, r⟩, ?_, ?_, ?_⟩
    · rw [parseNodesLine, hnf]; rfl
    · by_cases hdt : d = t <;> simp [hdt]
    · intro hne; simp [hne]

/-- Witness for C5: both directions at concrete data, including the
parser keeping a parent different from the taxid. -/
theorem C5_witness :
    (9605, 9606) ∈ relationshipRecords [(9606, ⟨some 9605, "species"⟩)] ∧
    ∃ info, parseNodesLine "9606\t|\t9605\t|\tspecies\t|" = some (9606, info) ∧
      (info.parent_taxid = none ↔ (9605 : Int) = 9606) ∧
      ((9605 : Int) ≠ 9606 → info.parent_taxid = some 9605) := by
  constructor
  · exact (C5_edge_phase.1 [(9606, ⟨some 9605, "species"⟩)] 9605 9606).mpr
      ⟨⟨some 9605, "species"⟩, by decide, rfl, by decide, by decide⟩
  · exact C5_edge_phase.2 "9606\t|\t9605\t|\tspecies\t|" 9606 9605 "species" (by decide)

/-- Counterexample to C5 as stated: the line `5|0|species` parses to a
node with stored `parentTaxid = some 0` (non-none, and 0 differs from
the taxid 5), yet the edge phase emits no record for it, because Python
`if parent_taxid` is false for `0`. -/
theorem C5_counterexample :
    parse_nodes_file ["5\t|\t0\t|\tspecies\t|"] = [(5, ⟨some 0, "species"⟩)] ∧
    NodeInfo.parent_taxid ⟨some 0, "species"⟩ ≠ none ∧
    relationshipRecords (parse_nodes_file ["5\t|\t0\t|\tspecies\t|"]) = [] := by
  exact ⟨by decide, by decide, by decide⟩

/-! ### Claim C8 -/

theorem dictFind_cons {α : Type} (p : Int × α) (d : List (Int × α)) (t : Int) :
    dictFind (p :: d) t = if p.1 = t then some p.2 else dictFind d t := by
  by_cases h : p.1 = t
  · rw [if_pos h]
    unfold dictFind
    rw [List.find?_cons_of_pos _ (by simpa using h)]
    rfl
  · rw [if_neg h]
    unfold dictFind
    rw [List.find?_cons_of_neg _ (by simpa using h)]

theorem dictFind_mapUpdate {α : Type} (d : List (Int × α)) (k t : Int) (f : α → α) :
    dictFind (dictUpdate d k f) t =
      if t = k then (dictFind d k).map f else dictFind d t := by
  unfold dictUpdate
  induction d with
  | nil => by_cases h : t = k <;> simp [dictFind, h]
  | cons p d ih =>
    simp only [beq_iff_eq] at ih ⊢
    by_cases hpk : p.1 = k
    · by_cases htk : t = k
      · subst htk
        simp [List.map_cons, dictFind_cons, hpk]
      · simp [List.map_cons, dictFind_cons, hpk, htk, Ne.symm htk, ih]
    · by_cases hpt : p.1 = t
      · have htk : ¬t = k := fun hh => hpk (hpt.trans hh)
        simp [List.map_cons, dictFind_cons, hpk, hpt, htk]
      · simp [List.map_cons, dictFind_cons, hpk, hpt, ih]

theorem dictFind_append {α : Type} (d : List (Int × α)) (k : Int) (v : α) (t : Int) :
    dictFind (d ++ [(k, v)]) t = (dictFind d t).or (if t = k then some v else none) := by
  induction d with
  | nil =>
    by_cases h : t = k
    · simp [dictFind_cons, dictFind, h]
    · simp [dictFind_cons, dictFind, h, Ne.symm h]
  | cons p d ih =>
    rw [List.cons_append, dictFind_cons, dictFind_cons]
    by_cases hpt : p.1 = t
    · simp [hpt]
    · simp [hpt, ih]

theorem cm_ensure (d : List (Int × NameInfo)) (k t : Int) :
    (dictFind (dictEnsure d k) t).bind NameInfo.common_name =
      (dictFind d t).bind NameInfo.common_name := by
  unfold dictEnsure
  split
  · rfl
  · rw [dictFind_append]
    cases hf : dictFind d t with
    | some i => rfl
    | none => by_cases htk : t = k <;> simp [htk]

theorem ensure_isSome (d : List (Int × NameInfo)) (k : Int) :
    (dictFind (dictEnsure d k) k).isSome = true := by
  unfold dictEnsure
  split
  · next h =>
    rw [List.any_eq_true] at h
    unfold dictFind
    rw [Option.isSome_map']
    rw [List.find?_isSome]
    exact h
  · rw [dictFind_append, if_pos rfl]
    cases dictFind d k <;> rfl

/-- Effect of one name row on the recorded common name of `t`. -/
theorem applyNameRow_common (d : List (Int × NameInfo)) (l : String) (t : Int) :
    (dictFind (applyNameRow d l) t).bind NameInfo.common_name =
      ((dictFind d t).bind NameInfo.common_name).or
        (match nameFields l with
         | some f => if f.1 = t ∧ f.2.2 = "common name" then some f.2.1 else none
         | none => none) := by
  cases hnf : nameFields l with
  | none =>
    rw [applyNameRow, hnf, Option.or_none]
  | some f =>
    obtain ⟨t2, name, cls⟩ := f
    rw [applyNameRow, hnf]
    dsimp only
    by_cases hsci : cls = "scientific name"
    · rw [if_pos hsci]
      have hcc : ¬(t2 = t ∧ cls = "common name") := by
        rintro ⟨-, h2⟩
        rw [hsci] at h2
        exact absurd h2 (by decide)
      rw [if_neg hcc, Option.or_none, dictFind_mapUpdate]
      by_cases htt : t = t2
      · rw [if_pos htt]
        subst htt
        rw [← cm_ensure d t t]
        cases dictFind (dictEnsure d t) t with
        | none => rfl
        | some i => rfl
      · rw [if_neg htt]
        exact cm_ensure d t2 t
    · by_cases hcom : cls = "common name"
      · rw [if_neg hsci, if_pos hcom, dictFind_mapUpdate]
        by_cases htt : t = t2
        · subst htt
          rw [if_pos rfl, if_pos ⟨rfl, hcom⟩]
          obtain ⟨i, hi⟩ := Option.isSome_iff_exists.mp (ensure_isSome d t)
          have hce := cm_ensure d t t
          rw [hi] at hce ⊢
          rw [← hce]
          cases hic : i.common_name with
          | none => simp [setCommonFirst, hic]
          | some c => simp [setCommonFirst, hic]
        · rw [if_neg htt, if_neg (fun hh => htt hh.1.symm), Option.or_none]
          exact cm_ensure d t2 t
      · rw [if_neg hsci, if_neg hcom, if_neg (fun hh => hcom hh.2), Option.or_none]
        exact cm_ensure d t2 t

/-- The recorded common name of `t` after folding name rows from an
arbitrary starting dictionary. -/
theorem names_fold_common (t : Int) :
    ∀ (lines : List String) (d : List (Int × NameInfo)),
      (dictFind (lines.foldl applyNameRow d) t).bind NameInfo.common_name =
        ((dictFind d t).bind NameInfo.common_name).or (commonNameRows lines t).head? := by
  intro lines
  induction lines with
  | nil =>
    intro d
    rw [List.foldl_nil]
    simp [commonNameRows, Option.or_none]
  | cons l ls ih =>
    intro d
    rw [List.foldl_cons, ih (applyNameRow d l), applyNameRow_common, Option.or_assoc]
    cases hnf : nameFields l with
    | none =>
      have hrows : commonNameRows (l :: ls) t = commonNameRows ls t := by
        unfold commonNameRows
        rw [List.filterMap_cons, hnf]
      rw [hrows, Option.none_or]
    | some f =>
      obtain ⟨t2, name, cls⟩ := f
      dsimp only
      by_cases hc : t2 = t ∧ cls = "common name"
      · have hrows : commonNameRows (l :: ls) t = name :: commonNameRows ls t := by
          unfold commonNameRows
          rw [List.filterMap_cons, hnf]
          dsimp only
          rw [if_pos hc]
        rw [hrows, if_pos hc]
        rfl
      · have hrows : commonNameRows (l :: ls) t = commonNameRows ls t := by
          unfold commonNameRows
          rw [List.filterMap_cons, hnf]
          dsimp only
          rw [if_neg hc]
        rw [hrows, if_neg hc, Option.none_or]

/-- C8: after parsing the names stream, the stored `commonName` of each
taxid is the name of its **first** common-name row, and every subsequent
common-name row for that taxid is ignored. -/
theorem C8_first_common_name (lines : List String) (t : Int) :
    (dictFind (parse_names_file lines) t).bind NameInfo.common_name =
      (commonNameRows lines t).head? := by
  rw [parse_names_file, names_fold_common t lines []]
  rw [show dictFind ([] : List (Int × NameInfo)) t = none from rfl]
  rw [show ((none : Option NameInfo).bind NameInfo.common_name) = none from rfl, Option.none_or]

end TaxView
